import Mathlib

/-!
Verification of the client-side time-series preparation pipeline of the
Piggy_App repository (range filtering, downsampling, label formatting).

The pipeline exists in three near-duplicate copies in the source:
* `src/components/MarketPriceChart.tsx` (namespace `Price` below),
* `src/app/(tabs)/index.tsx`            (namespace `Home` below),
* a legacy home screen embedded in `src/utils/format.ts` (namespace `Legacy`),
plus the label/caption logic of the `EquityChart` component
(`src/unnamed/part_002`, namespace `Chart` below).

Modelling conventions:
* JavaScript numbers are embedded as exact rationals `ℚ` (the spec and the
  claims speak in exact arithmetic; binary floating point is out of scope).
* `Array.prototype.sort` with comparator `(a, b) => k(a) - k(b)` is embedded
  as the stable sort `List.insertionSort` with relation `k a ≤ k b`
  (ECMAScript guarantees a stable sort; for a total preorder comparator the
  stable sorted permutation is unique, and insertion sort realises it).
* A JavaScript `Map` with integer keys is embedded as an association list
  `List (ℤ × P)` in insertion order; `Map.prototype.set` on an existing key
  overwrites in place (keeping the position), otherwise appends at the end,
  exactly as `upsert` below does; `Array.from(map.values())` is `mapValues`.
* `new Date(ms).getFullYear() / .getMonth()` depend on the device timezone;
  the timezone offset (in milliseconds, applied additively to the UTC
  instant) is made an explicit parameter `tz`, and the local calendar date
  is computed by the standard exact civil-from-days algorithm.
* `Date.now()` is made an explicit parameter `now` (milliseconds).
-/

/-- Display range selector, source `ChartRange = "1D" | "1W" | "1M" | "1Y"`. -/
inductive ChartRange : Type
  | D1
  | W1
  | M1
  | Y1
deriving DecidableEq

/-- Point of the per-symbol price feed, source `MarketPricePoint`. -/
structure MarketPricePoint : Type where
  timestamp : ℚ
  close : ℚ
deriving DecidableEq

/-- Point of the equity-history feed, source `EquitySeriesPoint`. -/
structure EquitySeriesPoint : Type where
  timestamp : ℚ
  total_equity : ℚ
deriving DecidableEq

/-- Chart widget datum, source `{ value: number; label: string }`. -/
structure ChartPoint : Type where
  value : ℚ
  label : String
deriving DecidableEq

/-! ### JavaScript `Date` local calendar model -/

/-- Truncation toward zero, as ECMAScript `ToIntegerOrInfinity` applied to
the time value passed to `new Date(ms)`. -/
def jsTrunc (q : ℚ) : ℤ := if q < 0 then -⌊-q⌋ else ⌊q⌋

/-- Days since the Unix epoch of the local-time interpretation of a
millisecond instant, for timezone offset `tz` milliseconds. -/
def epochDays (tz : ℤ) (ms : ℚ) : ℤ := Int.fdiv (jsTrunc ms + tz) 86400000

/-- Civil calendar date from a day number (days since 1970-01-01):
returns `(full year, zero-based month)` exactly as JavaScript
`getFullYear()` and `getMonth()` report for that day. -/
def civilYearMonth (z : ℤ) : ℤ × ℤ :=
  let w := z + 719468
  let era := Int.fdiv w 146097
  let doe := w - era * 146097
  let yoe := Int.fdiv (doe - Int.fdiv doe 1460 + Int.fdiv doe 36524 - Int.fdiv doe 146096) 365
  let y := yoe + era * 400
  let doy := doe - (365 * yoe + Int.fdiv yoe 4 - Int.fdiv yoe 100)
  let mp := Int.fdiv (5 * doy + 2) 153
  let m := mp + (if mp < 10 then 3 else -9)
  (y + (if m ≤ 2 then 1 else 0), m - 1)

/-- Source expression `d.getFullYear() * 12 + d.getMonth()` for
`d = new Date(ms)` in a timezone with offset `tz` milliseconds. -/
def ymBucket (tz : ℤ) (ms : ℚ) : ℤ :=
  (civilYearMonth (epochDays tz ms)).1 * 12 + (civilYearMonth (epochDays tz ms)).2

/-! ### JavaScript `Map` model and the shared bucket loop -/

section BucketMachinery

variable {P : Type}

/-- `Map.prototype.get`: first value stored under key `b`. -/
def findVal (b : ℤ) : List (ℤ × P) → Option P
  | [] => none
  | kv :: rest => if kv.1 = b then some kv.2 else findVal b rest

/-- `Map.prototype.set`: overwrite in place if the key is present,
append at the end otherwise. -/
def upsert (b : ℤ) (v : P) : List (ℤ × P) → List (ℤ × P)
  | [] => [(b, v)]
  | kv :: rest => if kv.1 = b then (b, v) :: rest else kv :: upsert b v rest

variable (bkt : P → ℤ) (key : P → ℚ)

/-- One iteration of the source bucket loop:

    const existing = bucketMap.get(bucket);
    if (!existing || key(p) > key(existing)) bucketMap.set(bucket, p);
-/
def bucketStep (m : List (ℤ × P)) (p : P) : List (ℤ × P) :=
  match findVal (bkt p) m with
  | none => upsert (bkt p) p m
  | some q => if key q < key p then upsert (bkt p) p m else m

/-- The whole source bucket loop `for (const p of series) { ... }`
starting from `new Map()`. -/
def bucketFold (l : List P) : List (ℤ × P) :=
  l.foldl (bucketStep bkt key) []

/-- `Array.from(bucketMap.values())` (insertion order). -/
def mapValues (m : List (ℤ × P)) : List P := m.map Prod.snd

/-- The survivor of a two-way comparison in the bucket loop: the incumbent
`q` is replaced by the newcomer `p` only when `key q < key p`. -/
def pick (q p : P) : P := if key q < key p then p else q

/-- The point that the bucket loop would retain from a list of same-bucket
members, in scan order (`none` for no members). -/
def bestOf : List P → Option P
  | [] => none
  | x :: xs => some (xs.foldl (pick key) x)

end BucketMachinery

/-! ### `src/components/MarketPriceChart.tsx` -/

namespace Price

/-- Lookback window table of `MarketPriceChart.tsx` (`RANGE_MS`). -/
def RANGE_MS : ChartRange → ℚ
  | .D1 => 24 * 60 * 60 * 1000
  | .W1 => 7 * 24 * 60 * 60 * 1000
  | .M1 => 30 * 24 * 60 * 60 * 1000
  | .Y1 => 366 * 24 * 60 * 60 * 1000

/-- Source constant `SEVEN_DAYS_SEC = 7 * 24 * 60 * 60`. -/
def SEVEN_DAYS_SEC : ℚ := 7 * 24 * 60 * 60

/-- Source `toSec`: normalize to seconds (`timestamp > 1e12` means the
raw value is in milliseconds). -/
def toSec (p : MarketPricePoint) : ℚ :=
  if p.timestamp > 1000000000000 then p.timestamp / 1000 else p.timestamp

/-- Source `filterByRange` (cutoff computed in milliseconds, compared in
the seconds domain, then sorted ascending by `toSec`). -/
def filterByRange (series : List MarketPricePoint) (range : ChartRange)
    (now : ℚ) : List MarketPricePoint :=
  let cutoffMs := now - RANGE_MS range
  let cutoffSec := cutoffMs / 1000
  List.insertionSort (fun a b => toSec a ≤ toSec b)
    (series.filter fun p => decide (cutoffSec ≤ toSec p))

/-- Local `sec` of the 1M branch of `downsampleForRange` (same formula as
`toSec`, restated locally in the source). -/
def sec (p : MarketPricePoint) : ℚ :=
  if p.timestamp > 1000000000000 then p.timestamp / 1000 else p.timestamp

/-- Local `tsMs` of the 1Y branch of `downsampleForRange`
(normalize to milliseconds). -/
def tsMs (p : MarketPricePoint) : ℚ :=
  if p.timestamp > 1000000000000 then p.timestamp else p.timestamp * 1000

/-- Source `downsampleForRange`: 1M keeps one point per 7-day bucket
(`Math.floor(sec(p) / SEVEN_DAYS_SEC)`), 1Y one point per local calendar
month; in both cases the retained point is the bucket member with the
strictly larger normalized timestamp (ties keep the incumbent), and the
bucket map values are finally sorted ascending. 1D/1W pass through. -/
def downsampleForRange (tz : ℤ) (series : List MarketPricePoint)
    (range : ChartRange) : List MarketPricePoint :=
  if series.isEmpty then series
  else
    match range with
    | .D1 => series
    | .W1 => series
    | .M1 =>
        List.insertionSort (fun a b => sec a ≤ sec b)
          (mapValues (bucketFold (fun p => ⌊sec p / SEVEN_DAYS_SEC⌋) sec series))
    | .Y1 =>
        List.insertionSort (fun a b => tsMs a ≤ tsMs b)
          (mapValues (bucketFold (fun p => ymBucket tz (tsMs p)) tsMs series))

/-- The composition the `MarketPriceChart` component computes:
`downsampleForRange(filterByRange(series, range), range)`. -/
def pipeline (tz : ℤ) (series : List MarketPricePoint) (range : ChartRange)
    (now : ℚ) : List MarketPricePoint :=
  downsampleForRange tz (filterByRange series range now) range

end Price

/-! ### `src/app/(tabs)/index.tsx` -/

namespace Home

/-- Lookback window table of `index.tsx` (`RANGE_MS`). -/
def RANGE_MS : ChartRange → ℚ
  | .D1 => 24 * 60 * 60 * 1000
  | .W1 => 7 * 24 * 60 * 60 * 1000
  | .M1 => 30 * 24 * 60 * 60 * 1000
  | .Y1 => 366 * 24 * 60 * 60 * 1000

/-- Source constant `SEVEN_DAYS_SEC = 7 * 24 * 60 * 60`. -/
def SEVEN_DAYS_SEC : ℚ := 7 * 24 * 60 * 60

/-- Local `toMs` of `filterSeriesByRange` (and of the 1Y branch of
`downsampleEquityByRange`): normalize to milliseconds. -/
def toMs (p : EquitySeriesPoint) : ℚ :=
  if p.timestamp > 1000000000000 then p.timestamp else p.timestamp * 1000

/-- Local `toSec` of `downsampleEquityByRange`: normalize to seconds. -/
def toSec (p : EquitySeriesPoint) : ℚ :=
  if p.timestamp > 1000000000000 then p.timestamp / 1000 else p.timestamp

/-- Source `filterSeriesByRange` of `index.tsx` (cutoff and comparison in
the milliseconds domain, then sorted ascending by `toMs`). -/
def filterSeriesByRange (series : List EquitySeriesPoint) (range : ChartRange)
    (now : ℚ) : List EquitySeriesPoint :=
  let cutoffMs := now - RANGE_MS range
  List.insertionSort (fun a b => toMs a ≤ toMs b)
    (series.filter fun p => decide (cutoffMs ≤ toMs p))

/-- Source `downsampleEquityByRange`: same policy as
`Price.downsampleForRange`, over equity points. -/
def downsampleEquityByRange (tz : ℤ) (series : List EquitySeriesPoint)
    (range : ChartRange) : List EquitySeriesPoint :=
  if series.isEmpty then series
  else
    match range with
    | .D1 => series
    | .W1 => series
    | .M1 =>
        List.insertionSort (fun a b => toSec a ≤ toSec b)
          (mapValues (bucketFold (fun p => ⌊toSec p / SEVEN_DAYS_SEC⌋) toSec series))
    | .Y1 =>
        List.insertionSort (fun a b => toMs a ≤ toMs b)
          (mapValues (bucketFold (fun p => ymBucket tz (toMs p)) toMs series))

/-- Source `prepareChartData`: filter then downsample. -/
def prepareChartData (tz : ℤ) (series : List EquitySeriesPoint)
    (range : ChartRange) (now : ℚ) : List EquitySeriesPoint :=
  downsampleEquityByRange tz (filterSeriesByRange series range now) range

end Home

/-! ### Legacy home screen embedded in `src/utils/format.ts` -/

namespace Legacy

/-- Lookback window table of the legacy copy (`RANGE_MS` in `format.ts`):
note `1Y` is 365 days here, not 366. -/
def RANGE_MS : ChartRange → ℚ
  | .D1 => 24 * 60 * 60 * 1000
  | .W1 => 7 * 24 * 60 * 60 * 1000
  | .M1 => 30 * 24 * 60 * 60 * 1000
  | .Y1 => 365 * 24 * 60 * 60 * 1000

/-- Source `filterSeriesByRange` of the legacy copy: compares the raw
`p.timestamp` against the millisecond cutoff, with no unit
normalization and no sorting. -/
def filterSeriesByRange (series : List EquitySeriesPoint) (range : ChartRange)
    (now : ℚ) : List EquitySeriesPoint :=
  let cutoff := now - RANGE_MS range
  series.filter fun p => decide (cutoff ≤ p.timestamp)

end Legacy

/-! ### `EquityChart` component (`src/unnamed/part_002`) -/

namespace Chart

/-- Source `toMs` of `EquityChart.tsx`. -/
def toMs (timestamp : ℚ) : ℚ :=
  if timestamp > 1000000000000 then timestamp else timestamp * 1000

/-- Source `seriesToChartData`: one chart point per series point; the label
is the empty string when `hidePointLabels`, otherwise the formatted
normalized instant. `formatLabel` is locale-dependent in the source
(`toLocaleTimeString` / `toLocaleDateString`), so it is an explicit
parameter of the embedding. -/
def seriesToChartData (formatLabel : ℚ → ChartRange → String)
    (series : List EquitySeriesPoint) (range : ChartRange)
    (hidePointLabels : Bool) : List ChartPoint :=
  series.map fun p =>
    ⟨p.total_equity, if hidePointLabels then "" else formatLabel (toMs p.timestamp) range⟩

/-- Source `hide1DXLabels = is1D && pointCount > 6`. -/
def hide1DXLabels (range : ChartRange) (pointCount : ℕ) : Bool :=
  decide (range = .D1) && decide (pointCount > 6)

/-- Source `hide1WXLabels = is1W && pointCount > 7`. -/
def hide1WXLabels (range : ChartRange) (pointCount : ℕ) : Bool :=
  decide (range = .W1) && decide (pointCount > 7)

/-- Source `hidePointLabels = hide1DXLabels || hide1WXLabels`. -/
def hidePointLabels (range : ChartRange) (pointCount : ℕ) : Bool :=
  hide1DXLabels range pointCount || hide1WXLabels range pointCount

/-- The centered caption the `EquityChart` JSX renders under the chart:
`"Today"` when `hide1DXLabels`, `"Week"` when `hide1WXLabels`, nothing
otherwise (source lines rendering `styles.centeredAxisLabel`). -/
def centeredCaption (range : ChartRange) (pointCount : ℕ) : Option String :=
  if hide1DXLabels range pointCount then some "Today"
  else if hide1WXLabels range pointCount then some "Week"
  else none

/-- The chart data the `EquityChart` component passes to the widget:
`seriesToChartData(series, range, hidePointLabels)` with
`pointCount = series.length`. -/
def equityChartData (formatLabel : ℚ → ChartRange → String)
    (series : List EquitySeriesPoint) (range : ChartRange) : List ChartPoint :=
  seriesToChartData formatLabel series range (hidePointLabels range series.length)

end Chart

/-! ### Machinery lemmas: the association-list `Map` model -/

section MapLemmas

variable {P : Type}

lemma findVal_upsert (b b' : ℤ) (v : P) (m : List (ℤ × P)) :
    findVal b (upsert b' v m) = if b' = b then some v else findVal b m := by
  induction m with
  | nil => by_cases h : b' = b <;> simp [upsert, findVal, h]
  | cons kv rest ih =>
      by_cases h1 : kv.1 = b'
      · by_cases h2 : b' = b
        · subst h2; simp [upsert, findVal, h1]
        · have h3 : kv.1 ≠ b := fun h => h2 (h1.symm.trans h)
          simp [upsert, findVal, h1, h2, h3]
      · by_cases h2 : kv.1 = b
        · have h4 : b' ≠ b := fun h => h1 (h2.trans h.symm)
          have h5 : b ≠ b' := fun h => h4 h.symm
          simp [upsert, findVal, h1, h2, h4, h5]
        · simp [upsert, findVal, h1, h2, ih]

lemma findVal_some_mem {b : ℤ} {q : P} {m : List (ℤ × P)}
    (h : findVal b m = some q) : (b, q) ∈ m := by
  induction m with
  | nil => simp [findVal] at h
  | cons kv rest ih =>
      by_cases h1 : kv.1 = b
      · subst h1
        simp only [findVal, if_pos] at h
        cases h
        simp
      · simp only [findVal, h1, if_neg, not_false_iff] at h
        exact List.mem_cons_of_mem _ (ih h)

lemma mem_upsert {kv : ℤ × P} {b : ℤ} {v : P} {m : List (ℤ × P)}
    (h : kv ∈ upsert b v m) : kv = (b, v) ∨ kv ∈ m := by
  induction m with
  | nil => simpa [upsert] using h
  | cons kv' rest ih =>
      by_cases h1 : kv'.1 = b
      · simp only [upsert, h1, if_pos] at h
        rcases List.mem_cons.1 h with h2 | h2
        · exact Or.inl h2
        · exact Or.inr (List.mem_cons_of_mem _ h2)
      · simp only [upsert, h1, if_neg, not_false_iff] at h
        rcases List.mem_cons.1 h with h2 | h2
        · exact Or.inr (h2 ▸ List.mem_cons_self _ _)
        · rcases ih h2 with h3 | h3
          · exact Or.inl h3
          · exact Or.inr (List.mem_cons_of_mem _ h3)

lemma upsert_of_findVal_none {b : ℤ} {m : List (ℤ × P)}
    (h : findVal b m = none) (v : P) : upsert b v m = m ++ [(b, v)] := by
  induction m with
  | nil => rfl
  | cons kv rest ih =>
      by_cases h1 : kv.1 = b
      · simp [findVal, h1] at h
      · simp only [findVal, h1, if_neg, not_false_iff] at h
        simp [upsert, h1, ih h]

lemma keys_upsert_of_findVal_some {b : ℤ} {q : P} {m : List (ℤ × P)}
    (h : findVal b m = some q) (v : P) :
    (upsert b v m).map Prod.fst = m.map Prod.fst := by
  induction m with
  | nil => simp [findVal] at h
  | cons kv rest ih =>
      by_cases h1 : kv.1 = b
      · simp [upsert, h1]
      · simp only [findVal, h1, if_neg, not_false_iff] at h
        simp [upsert, h1, ih h]

lemma findVal_eq_none_iff {b : ℤ} {m : List (ℤ × P)} :
    findVal b m = none ↔ b ∉ m.map Prod.fst := by
  induction m with
  | nil => simp [findVal]
  | cons kv rest ih =>
      by_cases h1 : kv.1 = b
      · simp [findVal, h1]
      · simp only [findVal, h1, if_neg, not_false_iff, List.map_cons, List.mem_cons, ih]
        constructor
        · rintro h2 (h3 | h3)
          · exact h1 h3.symm
          · exact h2 h3
        · intro h2 h3
          exact h2 (Or.inr h3)

lemma findVal_of_mem_nodup {b : ℤ} {q : P} {m : List (ℤ × P)}
    (hnd : (m.map Prod.fst).Nodup) (h : (b, q) ∈ m) : findVal b m = some q := by
  induction m with
  | nil => simp at h
  | cons kv rest ih =>
      rcases List.mem_cons.1 h with h2 | h2
      · simp [findVal, ← h2]
      · have hb : b ∈ rest.map Prod.fst := List.mem_map.2 ⟨(b, q), h2, rfl⟩
        have h1 : kv.1 ≠ b := by
          intro hk
          exact (List.nodup_cons.1 hnd).1 (hk ▸ hb)
        simp only [findVal, h1, if_neg, not_false_iff]
        exact ih (List.nodup_cons.1 hnd).2 h2

lemma length_upsert (b : ℤ) (v : P) (m : List (ℤ × P)) :
    (upsert b v m).length ≤ m.length + 1 := by
  induction m with
  | nil => simp [upsert]
  | cons kv rest ih =>
      by_cases h1 : kv.1 = b
      · simp [upsert, h1]
      · simp only [upsert, h1, if_neg, not_false_iff, List.length_cons]
        omega

end MapLemmas

/-! ### Machinery lemmas: the bucket loop -/

section BucketLemmas

variable {P : Type} (bkt : P → ℤ) (key : P → ℚ)

lemma bucketFold_append (l : List P) (p : P) :
    bucketFold bkt key (l ++ [p]) = bucketStep bkt key (bucketFold bkt key l) p := by
  simp [bucketFold, List.foldl_append]

lemma bestOf_append (l : List P) (p : P) :
    bestOf key (l ++ [p]) =
      match bestOf key l with
      | none => some p
      | some q => some (pick key q p) := by
  cases l with
  | nil => rfl
  | cons x xs => simp [bestOf, List.foldl_append]

lemma findVal_bucketFold (b : ℤ) (l : List P) :
    findVal b (bucketFold bkt key l) =
      bestOf key (l.filter fun p => decide (bkt p = b)) := by
  induction l using List.reverseRecOn with
  | nil => rfl
  | append_singleton l p ih =>
      rw [bucketFold_append, List.filter_append]
      by_cases hb : bkt p = b
      · have hf : (List.filter (fun p => decide (bkt p = b)) [p]) = [p] := by
          simp [hb]
        rw [hf, bestOf_append]
        unfold bucketStep
        rw [hb, ih]
        cases hbo : bestOf key (l.filter fun p => decide (bkt p = b)) with
        | none => simp [findVal_upsert, hb]
        | some q =>
            by_cases hlt : key q < key p
            · simp [hlt, findVal_upsert, pick]
            · simp [hlt, pick, ih, hbo]
      · have hf : (List.filter (fun p => decide (bkt p = b)) [p]) = [] := by
          simp [hb]
        rw [hf, List.append_nil]
        unfold bucketStep
        have hne : bkt p ≠ b := hb
        cases hfv : findVal (bkt p) (bucketFold bkt key l) with
        | none => simp [findVal_upsert, hne, ih]
        | some q =>
            by_cases hlt : key q < key p
            · simp [hlt, findVal_upsert, hne, ih]
            · simp [hlt, ih]

lemma mem_bucketFold {kv : ℤ × P} {l : List P}
    (h : kv ∈ bucketFold bkt key l) : kv.1 = bkt kv.2 ∧ kv.2 ∈ l := by
  induction l using List.reverseRecOn with
  | nil => simp [bucketFold] at h
  | append_singleton l p ih =>
      rw [bucketFold_append] at h
      unfold bucketStep at h
      have hup : kv ∈ upsert (bkt p) p (bucketFold bkt key l) →
          kv.1 = bkt kv.2 ∧ kv.2 ∈ l ++ [p] := by
        intro hm
        rcases mem_upsert hm with h2 | h2
        · subst h2; simp
        · rcases ih h2 with ⟨ha, hb⟩
          exact ⟨ha, List.mem_append_left _ hb⟩
      split at h
      · exact hup h
      · split at h
        · exact hup h
        · rcases ih h with ⟨ha, hb⟩
          exact ⟨ha, List.mem_append_left _ hb⟩

lemma nodup_keys_bucketFold (l : List P) :
    ((bucketFold bkt key l).map Prod.fst).Nodup := by
  induction l using List.reverseRecOn with
  | nil => simp [bucketFold]
  | append_singleton l p ih =>
      rw [bucketFold_append]
      unfold bucketStep
      split
      · next hfv =>
          rw [upsert_of_findVal_none hfv]
          rw [List.map_append, List.nodup_append]
          refine ⟨ih, by simp, ?_⟩
          intro a ha hb
          simp only [List.map_cons, List.map_nil, List.mem_singleton] at hb
          subst hb
          exact (findVal_eq_none_iff.1 hfv) ha
      · next q hfv =>
          split
          · rw [keys_upsert_of_findVal_some hfv]
            exact ih
          · exact ih

lemma length_bucketFold (l : List P) :
    (bucketFold bkt key l).length ≤ l.length := by
  induction l using List.reverseRecOn with
  | nil => simp [bucketFold]
  | append_singleton l p ih =>
      rw [bucketFold_append]
      unfold bucketStep
      have hup : (upsert (bkt p) p (bucketFold bkt key l)).length ≤ (l ++ [p]).length := by
        calc (upsert (bkt p) p (bucketFold bkt key l)).length
            ≤ (bucketFold bkt key l).length + 1 := length_upsert _ _ _
          _ ≤ l.length + 1 := by omega
          _ = (l ++ [p]).length := by simp
      split
      · exact hup
      · split
        · exact hup
        · simp only [List.length_append, List.length_singleton]
          omega

lemma foldl_pick_spec (x : P) (xs : List P) :
    (∀ p ∈ x :: xs, key p ≤ key (xs.foldl (pick key) x)) ∧
      ∃ l₁ l₂, x :: xs = l₁ ++ (xs.foldl (pick key) x) :: l₂ ∧
        ∀ p ∈ l₁, key p < key (xs.foldl (pick key) x) := by
  induction xs using List.reverseRecOn with
  | nil => exact ⟨by simp, [], [], by simp, by simp⟩
  | append_singleton xs p ih =>
      rw [List.foldl_append]
      set r := xs.foldl (pick key) x with hr
      rcases ih with ⟨hmax, l₁, l₂, hsplit, hlt⟩
      simp only [List.foldl_cons, List.foldl_nil]
      by_cases h : key r < key p
      · have hpick : pick key r p = p := by simp [pick, h]
        rw [hpick]
        constructor
        · intro q hq
          rcases List.mem_cons.1 hq with h2 | h2
          · subst h2
            have := hmax q (by simp)
            -- key x ≤ key r < key p
            exact le_of_lt (lt_of_le_of_lt (hmax _ (List.mem_cons_self _ _)) h)
          · rcases List.mem_append.1 h2 with h3 | h3
            · exact le_of_lt (lt_of_le_of_lt (hmax _ (List.mem_cons_of_mem _ h3)) h)
            · simp only [List.mem_singleton] at h3
              subst h3
              exact le_refl _
        · refine ⟨x :: xs, [], by simp, ?_⟩
          intro q hq
          exact lt_of_le_of_lt (hmax _ hq) h
      · have hpick : pick key r p = r := by simp [pick, h]
        rw [hpick]
        constructor
        · intro q hq
          rcases List.mem_cons.1 hq with h2 | h2
          · subst h2
            exact hmax _ (List.mem_cons_self _ _)
          · rcases List.mem_append.1 h2 with h3 | h3
            · exact hmax _ (List.mem_cons_of_mem _ h3)
            · simp only [List.mem_singleton] at h3
              subst h3
              exact le_of_not_lt h
        · refine ⟨l₁, l₂ ++ [p], ?_, hlt⟩
          rw [← List.cons_append, hsplit]
          simp

lemma bestOf_eq_none_iff (l : List P) : bestOf key l = none ↔ l = [] := by
  cases l <;> simp [bestOf]

lemma bestOf_spec {l : List P} {q : P} (h : bestOf key l = some q) :
    (∀ p ∈ l, key p ≤ key q) ∧
      ∃ l₁ l₂, l = l₁ ++ q :: l₂ ∧ ∀ p ∈ l₁, key p < key q := by
  cases l with
  | nil => simp [bestOf] at h
  | cons x xs =>
      simp only [bestOf, Option.some.injEq] at h
      subst h
      exact foldl_pick_spec key x xs

lemma mem_mapValues {q : P} {m : List (ℤ × P)} :
    q ∈ mapValues m ↔ ∃ b, (b, q) ∈ m := by
  simp only [mapValues, List.mem_map]
  constructor
  · rintro ⟨⟨b, v⟩, hm, rfl⟩
    exact ⟨b, hm⟩
  · rintro ⟨b, hm⟩
    exact ⟨(b, q), hm, rfl⟩

end BucketLemmas

/-! ### Machinery lemmas: the bucket map values -/

section ValuesLemmas

variable {P : Type} (bkt : P → ℤ) (key : P → ℚ)

lemma mem_values_bucketFold {q : P} {l : List P}
    (h : q ∈ mapValues (bucketFold bkt key l)) : q ∈ l := by
  rcases mem_mapValues.1 h with ⟨b, hm⟩
  exact (mem_bucketFold bkt key hm).2

lemma findVal_of_mem_values {q : P} {l : List P}
    (h : q ∈ mapValues (bucketFold bkt key l)) :
    findVal (bkt q) (bucketFold bkt key l) = some q := by
  rcases mem_mapValues.1 h with ⟨b, hm⟩
  have hb : b = bkt q := (mem_bucketFold bkt key hm).1
  subst hb
  exact findVal_of_mem_nodup (nodup_keys_bucketFold bkt key l) hm

lemma pairwise_ne_values {l : List P} :
    (mapValues (bucketFold bkt key l)).Pairwise fun a b => bkt a ≠ bkt b := by
  have hnd := nodup_keys_bucketFold bkt key l
  rw [List.Nodup, List.pairwise_map] at hnd
  rw [mapValues, List.pairwise_map]
  refine hnd.imp_of_mem ?_
  intro kv kv' hkv hkv' hne
  have h1 := (mem_bucketFold bkt key hkv).1
  have h2 := (mem_bucketFold bkt key hkv').1
  rw [← h1, ← h2]
  exact hne

lemma values_surj {p : P} {l : List P} (hp : p ∈ l) :
    ∃ q ∈ mapValues (bucketFold bkt key l), bkt q = bkt p := by
  have hmem : p ∈ l.filter fun x => decide (bkt x = bkt p) := by
    simp [List.mem_filter, hp]
  have hne : (l.filter fun x => decide (bkt x = bkt p)) ≠ [] := by
    intro h0
    rw [h0] at hmem
    exact absurd hmem (List.not_mem_nil p)
  cases hbo : bestOf key (l.filter fun x => decide (bkt x = bkt p)) with
  | none => exact absurd ((bestOf_eq_none_iff key _).1 hbo) hne
  | some q =>
      have hfv : findVal (bkt p) (bucketFold bkt key l) = some q := by
        rw [findVal_bucketFold]
        exact hbo
      have hqm : (bkt p, q) ∈ bucketFold bkt key l := findVal_some_mem hfv
      refine ⟨q, mem_mapValues.2 ⟨bkt p, hqm⟩, ?_⟩
      exact ((mem_bucketFold bkt key hqm).1).symm

lemma values_max {q : P} {l : List P}
    (h : q ∈ mapValues (bucketFold bkt key l)) :
    ∀ p ∈ l, bkt p = bkt q → key p ≤ key q := by
  intro p hp hbp
  have hfv := findVal_of_mem_values bkt key h
  rw [findVal_bucketFold] at hfv
  have hmem : p ∈ l.filter fun x => decide (bkt x = bkt q) := by
    simp [List.mem_filter, hp, hbp]
  exact (bestOf_spec key hfv).1 p hmem

lemma values_first {q : P} {l : List P}
    (h : q ∈ mapValues (bucketFold bkt key l)) :
    ∃ l₁ l₂, (l.filter fun p => decide (bkt p = bkt q)) = l₁ ++ q :: l₂ ∧
      ∀ p ∈ l₁, key p < key q := by
  have hfv := findVal_of_mem_values bkt key h
  rw [findVal_bucketFold] at hfv
  exact (bestOf_spec key hfv).2

lemma length_values {l : List P} :
    (mapValues (bucketFold bkt key l)).length ≤ l.length := by
  rw [mapValues, List.length_map]
  exact length_bucketFold bkt key l

lemma values_of_pairwise {l : List P}
    (h : l.Pairwise fun a b => bkt a ≠ bkt b) :
    mapValues (bucketFold bkt key l) = l := by
  induction l using List.reverseRecOn with
  | nil => rfl
  | append_singleton l p ih =>
      rw [List.pairwise_append] at h
      rcases h with ⟨h1, _, h3⟩
      have hfv : findVal (bkt p) (bucketFold bkt key l) = none := by
        cases hfv : findVal (bkt p) (bucketFold bkt key l) with
        | none => rfl
        | some q =>
            have hqm := findVal_some_mem hfv
            have hq1 := (mem_bucketFold bkt key hqm).1
            have hq2 := (mem_bucketFold bkt key hqm).2
            exact absurd (hq1.symm) (h3 q hq2 p (List.mem_singleton_self p))
      rw [bucketFold_append]
      unfold bucketStep
      rw [hfv, upsert_of_findVal_none hfv]
      rw [mapValues, List.map_append, ← mapValues, ih h1]
      rfl

end ValuesLemmas

/-! ### Bridge lemmas between the seconds and milliseconds domains -/

lemma Home.toMs_eq (p : EquitySeriesPoint) : Home.toMs p = 1000 * Home.toSec p := by
  unfold Home.toMs Home.toSec
  by_cases h : p.timestamp > 1000000000000
  · rw [if_pos h, if_pos h]
    field_simp
  · rw [if_neg h, if_neg h]
    ring

lemma Price.tsMs_eq (p : MarketPricePoint) : Price.tsMs p = 1000 * Price.sec p := by
  unfold Price.tsMs Price.sec
  by_cases h : p.timestamp > 1000000000000
  · rw [if_pos h, if_pos h]
    field_simp
  · rw [if_neg h, if_neg h]
    ring

lemma Price.toSec_eq_sec : Price.toSec = Price.sec := funext fun _ => rfl

lemma Home.toSec_le_iff (a b : EquitySeriesPoint) :
    Home.toSec a ≤ Home.toSec b ↔ Home.toMs a ≤ Home.toMs b := by
  rw [Home.toMs_eq, Home.toMs_eq]
  constructor
  · intro h; linarith
  · intro h; linarith

lemma Price.sec_le_iff (a b : MarketPricePoint) :
    Price.sec a ≤ Price.sec b ↔ Price.tsMs a ≤ Price.tsMs b := by
  rw [Price.tsMs_eq, Price.tsMs_eq]
  constructor
  · intro h; linarith
  · intro h; linarith

lemma Price.cutoff_iff (c : ℚ) (p : MarketPricePoint) :
    c / 1000 ≤ Price.toSec p ↔ c ≤ Price.tsMs p := by
  rw [Price.toSec_eq_sec, Price.tsMs_eq]
  rw [div_le_iff₀ (by norm_num : (0 : ℚ) < 1000)]
  constructor
  · intro h; linarith
  · intro h; linarith

/-! ### Sorting helper lemmas -/

lemma pairwise_le_insertionSort {P : Type} (key : P → ℚ) (l : List P) :
    (List.insertionSort (fun a b => key a ≤ key b) l).Pairwise fun a b =>
      key a ≤ key b := by
  haveI : IsTotal P fun a b => key a ≤ key b := ⟨fun a b => le_total _ _⟩
  haveI : IsTrans P fun a b => key a ≤ key b := ⟨fun _ _ _ hab hbc => le_trans hab hbc⟩
  exact List.sorted_insertionSort _ l

lemma insertionSort_eq_of_pairwise {P : Type} {key : P → ℚ} {l : List P}
    (h : l.Pairwise fun a b => key a ≤ key b) :
    List.insertionSort (fun a b => key a ≤ key b) l = l :=
  List.Sorted.insertionSort_eq h

/-! ### Unfolding lemmas for the downsampling branches -/

lemma Home.equity_downsample_D1 (tz : ℤ) (s : List EquitySeriesPoint) :
    Home.downsampleEquityByRange tz s .D1 = s := by
  unfold Home.downsampleEquityByRange
  split <;> rfl

lemma Home.equity_downsample_W1 (tz : ℤ) (s : List EquitySeriesPoint) :
    Home.downsampleEquityByRange tz s .W1 = s := by
  unfold Home.downsampleEquityByRange
  split <;> rfl

lemma Home.equity_downsample_M1 (tz : ℤ) (s : List EquitySeriesPoint) :
    Home.downsampleEquityByRange tz s .M1 =
      List.insertionSort (fun a b => Home.toSec a ≤ Home.toSec b)
        (mapValues (bucketFold (fun p => ⌊Home.toSec p / Home.SEVEN_DAYS_SEC⌋)
          Home.toSec s)) := by
  unfold Home.downsampleEquityByRange
  split
  · next h =>
      have hs : s = [] := List.isEmpty_iff.1 h
      subst hs
      rfl
  · rfl

lemma Home.equity_downsample_Y1 (tz : ℤ) (s : List EquitySeriesPoint) :
    Home.downsampleEquityByRange tz s .Y1 =
      List.insertionSort (fun a b => Home.toMs a ≤ Home.toMs b)
        (mapValues (bucketFold (fun p => ymBucket tz (Home.toMs p)) Home.toMs s)) := by
  unfold Home.downsampleEquityByRange
  split
  · next h =>
      have hs : s = [] := List.isEmpty_iff.1 h
      subst hs
      rfl
  · rfl

lemma Price.downsample_D1 (tz : ℤ) (s : List MarketPricePoint) :
    Price.downsampleForRange tz s .D1 = s := by
  unfold Price.downsampleForRange
  split <;> rfl

lemma Price.downsample_W1 (tz : ℤ) (s : List MarketPricePoint) :
    Price.downsampleForRange tz s .W1 = s := by
  unfold Price.downsampleForRange
  split <;> rfl

lemma Price.downsample_M1 (tz : ℤ) (s : List MarketPricePoint) :
    Price.downsampleForRange tz s .M1 =
      List.insertionSort (fun a b => Price.sec a ≤ Price.sec b)
        (mapValues (bucketFold (fun p => ⌊Price.sec p / Price.SEVEN_DAYS_SEC⌋)
          Price.sec s)) := by
  unfold Price.downsampleForRange
  split
  · next h =>
      have hs : s = [] := List.isEmpty_iff.1 h
      subst hs
      rfl
  · rfl

lemma Price.downsample_Y1 (tz : ℤ) (s : List MarketPricePoint) :
    Price.downsampleForRange tz s .Y1 =
      List.insertionSort (fun a b => Price.tsMs a ≤ Price.tsMs b)
        (mapValues (bucketFold (fun p => ymBucket tz (Price.tsMs p)) Price.tsMs s)) := by
  unfold Price.downsampleForRange
  split
  · next h =>
      have hs : s = [] := List.isEmpty_iff.1 h
      subst hs
      rfl
  · rfl

/-! ### Filter membership lemmas -/

lemma Home.equity_mem_filter_iff {s : List EquitySeriesPoint} {r : ChartRange} {now : ℚ}
    {p : EquitySeriesPoint} :
    p ∈ Home.filterSeriesByRange s r now ↔
      p ∈ s ∧ now - Home.RANGE_MS r ≤ Home.toMs p := by
  unfold Home.filterSeriesByRange
  rw [List.mem_insertionSort, List.mem_filter]
  simp

lemma Price.mem_filter_iff {s : List MarketPricePoint} {r : ChartRange} {now : ℚ}
    {p : MarketPricePoint} :
    p ∈ Price.filterByRange s r now ↔
      p ∈ s ∧ now - Price.RANGE_MS r ≤ Price.tsMs p := by
  unfold Price.filterByRange
  rw [List.mem_insertionSort, List.mem_filter]
  simp [Price.cutoff_iff]

/-! ### Claim C6 -/

/-- C6 counterexample: the claim says every copy of the pipeline maps `1Y` to
31,622,400,000 ms (366 days), but the legacy copy of `RANGE_MS` in
`src/utils/format.ts` maps `1Y` to 365 days = 31,536,000,000 ms. -/
theorem C6_counterexample :
    Legacy.RANGE_MS ChartRange.Y1 = 31536000000 ∧
      Legacy.RANGE_MS ChartRange.Y1 ≠ 31622400000 := by
  constructor
  · norm_num [Legacy.RANGE_MS]
  · norm_num [Legacy.RANGE_MS]

/-- C6 (amended): the lookback tables of the price chart and the active home
screen agree and map 1D to 86,400,000 ms, 1W to 604,800,000 ms, 1M to
2,592,000,000 ms and 1Y to 31,622,400,000 ms (366 days); the legacy copy in
`format.ts` agrees on 1D/1W/1M but maps 1Y to 31,536,000,000 ms (365 days). -/
theorem C6_theorem :
    (∀ r, Price.RANGE_MS r = Home.RANGE_MS r) ∧
    Price.RANGE_MS ChartRange.D1 = 86400000 ∧
    Price.RANGE_MS ChartRange.W1 = 604800000 ∧
    Price.RANGE_MS ChartRange.M1 = 2592000000 ∧
    Price.RANGE_MS ChartRange.Y1 = 31622400000 ∧
    Legacy.RANGE_MS ChartRange.D1 = 86400000 ∧
    Legacy.RANGE_MS ChartRange.W1 = 604800000 ∧
    Legacy.RANGE_MS ChartRange.M1 = 2592000000 ∧
    Legacy.RANGE_MS ChartRange.Y1 = 31536000000 := by
  refine ⟨fun r => by cases r <;> rfl, ?_, ?_, ?_, ?_, ?_, ?_, ?_, ?_⟩ <;>
    norm_num [Price.RANGE_MS, Legacy.RANGE_MS]

/-! ### Claim C7 -/

/-- C7: the pipeline is a total function of its well-typed input (it is
embedded as total Lean functions over lists), and the empty series maps to
the empty output for every range and reference time, in every copy. -/
theorem C7_theorem : ∀ (tz : ℤ) (r : ChartRange) (now : ℚ),
    Price.pipeline tz [] r now = [] ∧
    Home.prepareChartData tz [] r now = [] ∧
    Legacy.filterSeriesByRange [] r now = [] := by
  intro tz r now
  exact ⟨rfl, rfl, rfl⟩

/-! ### Claim C3 -/

/-- C3 counterexample: the claim says the `> 1e12` unit heuristic is applied
at every place a timestamp is read for comparison, and in particular that a
seconds point `1700000000` and a milliseconds point `1700000000000` are
filtered identically by every range. The two points normalize to the same
millisecond instant, yet the legacy `filterSeriesByRange` in
`src/utils/format.ts` (one of the places the claim cites) compares the raw
timestamp against the millisecond cutoff and keeps only the milliseconds
point. -/
theorem C3_counterexample :
    Home.toMs ⟨1700000000, 1⟩ = Home.toMs ⟨1700000000000, 2⟩ ∧
    Legacy.filterSeriesByRange [⟨1700000000, 1⟩, ⟨1700000000000, 2⟩]
        ChartRange.D1 1700000000000 = [⟨1700000000000, 2⟩] := by
  constructor
  · norm_num [Home.toMs]
  · simp only [Legacy.filterSeriesByRange, Legacy.RANGE_MS, List.filter_cons,
      List.filter_nil]
    norm_num

/-- C3 (amended): in the two active pipelines (`MarketPriceChart.tsx` and
`index.tsx`) the `> 1e12` heuristic is applied at every read: for every pair
of points with raw timestamps `1700000000` (seconds) and `1700000000000`
(milliseconds), both normalize to the same second and millisecond values,
fall in the same 1M and 1Y buckets, and are filtered identically (both kept,
in input order, or both dropped) by every range; the legacy filter in
`format.ts` is the exception recorded in the counterexample. -/
theorem C3_theorem (v₁ v₂ : ℚ) (r : ChartRange) (now : ℚ) (tz : ℤ) :
    Home.toMs ⟨1700000000, v₁⟩ = Home.toMs ⟨1700000000000, v₂⟩ ∧
    Home.toSec ⟨1700000000, v₁⟩ = Home.toSec ⟨1700000000000, v₂⟩ ∧
    Price.tsMs ⟨1700000000, v₁⟩ = Price.tsMs ⟨1700000000000, v₂⟩ ∧
    Price.sec ⟨1700000000, v₁⟩ = Price.sec ⟨1700000000000, v₂⟩ ∧
    (⌊Home.toSec ⟨1700000000, v₁⟩ / Home.SEVEN_DAYS_SEC⌋ : ℤ)
        = ⌊Home.toSec ⟨1700000000000, v₂⟩ / Home.SEVEN_DAYS_SEC⌋ ∧
    ymBucket tz (Home.toMs ⟨1700000000, v₁⟩)
        = ymBucket tz (Home.toMs ⟨1700000000000, v₂⟩) ∧
    (Home.filterSeriesByRange [⟨1700000000, v₁⟩, ⟨1700000000000, v₂⟩] r now
        = [⟨1700000000, v₁⟩, ⟨1700000000000, v₂⟩] ∨
      Home.filterSeriesByRange [⟨1700000000, v₁⟩, ⟨1700000000000, v₂⟩] r now = []) ∧
    (Price.filterByRange [⟨1700000000, v₁⟩, ⟨1700000000000, v₂⟩] r now
        = [⟨1700000000, v₁⟩, ⟨1700000000000, v₂⟩] ∨
      Price.filterByRange [⟨1700000000, v₁⟩, ⟨1700000000000, v₂⟩] r now = []) := by
  have hms : Home.toMs ⟨1700000000, v₁⟩ = 1700000000000 := by norm_num [Home.toMs]
  have hms' : Home.toMs ⟨1700000000000, v₂⟩ = 1700000000000 := by norm_num [Home.toMs]
  have hsec : Home.toSec ⟨1700000000, v₁⟩ = 1700000000 := by norm_num [Home.toSec]
  have hsec' : Home.toSec ⟨1700000000000, v₂⟩ = 1700000000 := by norm_num [Home.toSec]
  have hpms : Price.tsMs ⟨1700000000, v₁⟩ = 1700000000000 := by norm_num [Price.tsMs]
  have hpms' : Price.tsMs ⟨1700000000000, v₂⟩ = 1700000000000 := by norm_num [Price.tsMs]
  have hpsec : Price.sec ⟨1700000000, v₁⟩ = 1700000000 := by norm_num [Price.sec]
  have hpsec' : Price.sec ⟨1700000000000, v₂⟩ = 1700000000 := by norm_num [Price.sec]
  refine ⟨by rw [hms, hms'], by rw [hsec, hsec'], by rw [hpms, hpms'],
    by rw [hpsec, hpsec'], by rw [hsec, hsec'], by rw [hms, hms'], ?_, ?_⟩
  · by_cases hc : now - Home.RANGE_MS r ≤ 1700000000000
    · left
      unfold Home.filterSeriesByRange
      simp only [List.filter_cons, List.filter_nil, hms, hms',
        decide_eq_true_eq, hc, if_pos]
      simp [List.insertionSort, List.orderedInsert, hms, hms']
    · right
      unfold Home.filterSeriesByRange
      simp only [List.filter_cons, List.filter_nil, hms, hms',
        decide_eq_true_eq, hc, if_neg]
      rfl
  · have hpc : ∀ p : MarketPricePoint,
        (decide ((now - Price.RANGE_MS r) / 1000 ≤ Price.toSec p))
          = decide (now - Price.RANGE_MS r ≤ Price.tsMs p) := by
      intro p
      exact decide_eq_decide.2 (Price.cutoff_iff _ p)
    by_cases hc : now - Price.RANGE_MS r ≤ 1700000000000
    · left
      unfold Price.filterByRange
      simp only [List.filter_cons, List.filter_nil, hpc, hpms, hpms',
        decide_eq_true_eq, hc, if_pos]
      simp [List.insertionSort, List.orderedInsert, Price.toSec_eq_sec, hpsec, hpsec']
    · right
      unfold Price.filterByRange
      simp only [List.filter_cons, List.filter_nil, hpc, hpms, hpms',
        decide_eq_true_eq, hc, if_neg]
      rfl

/-! ### Claim C2 -/

/-- C2: for the series `[(0,10),(604800,20),(604801,30)]` (timestamps in
seconds), range 1M and any `now` for which all three points pass the range
filter, filter-then-downsample returns exactly `[(0,10),(604801,30)]` in both
pipeline copies: `t=0` occupies 7-day bucket 0 while `t=604800` and
`t=604801` share bucket 1, of which the later point (value 30) survives. -/
theorem C2_theorem (tz : ℤ) (now : ℚ)
    (h : ∀ p ∈ ([⟨0, 10⟩, ⟨604800, 20⟩, ⟨604801, 30⟩] : List EquitySeriesPoint),
      now - Home.RANGE_MS ChartRange.M1 ≤ Home.toMs p) :
    Home.prepareChartData tz [⟨0, 10⟩, ⟨604800, 20⟩, ⟨604801, 30⟩]
        ChartRange.M1 now = [⟨0, 10⟩, ⟨604801, 30⟩] ∧
    (Price.pipeline tz [⟨0, 10⟩, ⟨604800, 20⟩, ⟨604801, 30⟩]
        ChartRange.M1 now).map (fun p => (p.timestamp, p.close))
      = [((0 : ℚ), (10 : ℚ)), (604801, 30)] := by
  have hcut : now - Home.RANGE_MS ChartRange.M1 ≤ 0 := by
    have h0 := h ⟨0, 10⟩ (by simp)
    rwa [show Home.toMs ⟨0, 10⟩ = 0 by norm_num [Home.toMs]] at h0
  have hfloor0 : (⌊(0 : ℚ) / 604800⌋ : ℤ) = 0 := by norm_num
  have hfloor1 : (⌊(604800 : ℚ) / 604800⌋ : ℤ) = 1 := by norm_num
  have hfloor2 : (⌊(604801 : ℚ) / 604800⌋ : ℤ) = 1 := by
    norm_num [Int.floor_eq_iff]
  constructor
  · have hfil : Home.filterSeriesByRange [⟨0, 10⟩, ⟨604800, 20⟩, ⟨604801, 30⟩]
        ChartRange.M1 now = [⟨0, 10⟩, ⟨604800, 20⟩, ⟨604801, 30⟩] := by
      unfold Home.filterSeriesByRange
      dsimp only
      rw [List.filter_eq_self.mpr]
      · refine @insertionSort_eq_of_pairwise _ Home.toMs _ ?_
        norm_num [List.pairwise_cons, Home.toMs]
      · intro a ha
        exact decide_eq_true (h a ha)
    unfold Home.prepareChartData
    rw [hfil, Home.equity_downsample_M1]
    norm_num [bucketFold, bucketStep, findVal, upsert, mapValues, Home.toSec,
      Home.SEVEN_DAYS_SEC, List.insertionSort, List.orderedInsert,
      hfloor0, hfloor1, hfloor2]
  · have hfil : Price.filterByRange [⟨0, 10⟩, ⟨604800, 20⟩, ⟨604801, 30⟩]
        ChartRange.M1 now = [⟨0, 10⟩, ⟨604800, 20⟩, ⟨604801, 30⟩] := by
      unfold Price.filterByRange
      dsimp only
      rw [List.filter_eq_self.mpr]
      · refine @insertionSort_eq_of_pairwise _ Price.toSec _ ?_
        norm_num [List.pairwise_cons, Price.toSec]
      · intro a ha
        refine decide_eq_true ((Price.cutoff_iff _ a).2 ?_)
        have hR : Price.RANGE_MS ChartRange.M1 = Home.RANGE_MS ChartRange.M1 := rfl
        have hbound : now - Price.RANGE_MS ChartRange.M1 ≤ 0 := by
          rw [hR]; exact hcut
        have : (0 : ℚ) ≤ Price.tsMs a := by
          simp only [List.mem_cons, List.mem_singleton, List.not_mem_nil,
            or_false] at ha
          rcases ha with rfl | rfl | rfl <;> norm_num [Price.tsMs]
        linarith
    unfold Price.pipeline
    rw [hfil, Price.downsample_M1]
    norm_num [bucketFold, bucketStep, findVal, upsert, mapValues, Price.sec,
      Price.SEVEN_DAYS_SEC, List.insertionSort, List.orderedInsert,
      hfloor0, hfloor1, hfloor2]

/-! ### Claim C8 -/

/-- C8: in the `EquityChart` component, for range 1D with more than 6 points
(resp. 1W with more than 7) every per-point label is the empty string and
the single centered caption is "Today" (resp. "Week"); at or below those
thresholds every point carries its range-appropriate formatted label
(the locale-dependent formatter is the `fmt` parameter) and no caption is
shown. -/
theorem C8_theorem (fmt : ℚ → ChartRange → String)
    (series : List EquitySeriesPoint) (range : ChartRange) :
    ((range = ChartRange.D1 ∧ series.length > 6) →
      (∀ cp ∈ Chart.equityChartData fmt series range, cp.label = "") ∧
      Chart.centeredCaption range series.length = some "Today") ∧
    ((range = ChartRange.W1 ∧ series.length > 7) →
      (∀ cp ∈ Chart.equityChartData fmt series range, cp.label = "") ∧
      Chart.centeredCaption range series.length = some "Week") ∧
    (¬((range = ChartRange.D1 ∧ series.length > 6) ∨
        (range = ChartRange.W1 ∧ series.length > 7)) →
      Chart.equityChartData fmt series range
        = series.map (fun p => ⟨p.total_equity, fmt (Chart.toMs p.timestamp) range⟩) ∧
      Chart.centeredCaption range series.length = none) := by
  refine ⟨?_, ?_, ?_⟩
  · rintro ⟨rfl, hlen⟩
    have h1 : Chart.hide1DXLabels ChartRange.D1 series.length = true := by
      simp [Chart.hide1DXLabels, hlen]
    constructor
    · intro cp hcp
      unfold Chart.equityChartData Chart.seriesToChartData at hcp
      rw [show Chart.hidePointLabels ChartRange.D1 series.length = true by
        simp [Chart.hidePointLabels, h1]] at hcp
      rcases List.mem_map.1 hcp with ⟨p, _, rfl⟩
      simp
    · simp [Chart.centeredCaption, h1]
  · rintro ⟨rfl, hlen⟩
    have h1 : Chart.hide1WXLabels ChartRange.W1 series.length = true := by
      simp [Chart.hide1WXLabels, hlen]
    have h0 : Chart.hide1DXLabels ChartRange.W1 series.length = false := by
      simp [Chart.hide1DXLabels]
    constructor
    · intro cp hcp
      unfold Chart.equityChartData Chart.seriesToChartData at hcp
      rw [show Chart.hidePointLabels ChartRange.W1 series.length = true by
        simp [Chart.hidePointLabels, h1]] at hcp
      rcases List.mem_map.1 hcp with ⟨p, _, rfl⟩
      simp
    · simp [Chart.centeredCaption, h0, h1]
  · intro hnot
    rw [not_or] at hnot
    have h1 : Chart.hide1DXLabels range series.length = false := by
      by_cases hr : range = ChartRange.D1
      · subst hr
        have hl : ¬ series.length > 6 := fun hl => hnot.1 ⟨rfl, hl⟩
        simp [Chart.hide1DXLabels, hl]
      · simp [Chart.hide1DXLabels, hr]
    have h2 : Chart.hide1WXLabels range series.length = false := by
      by_cases hr : range = ChartRange.W1
      · subst hr
        have hl : ¬ series.length > 7 := fun hl => hnot.2 ⟨rfl, hl⟩
        simp [Chart.hide1WXLabels, hl]
      · simp [Chart.hide1WXLabels, hr]
    constructor
    · unfold Chart.equityChartData Chart.seriesToChartData
      rw [show Chart.hidePointLabels range series.length = false by
        simp [Chart.hidePointLabels, h1, h2]]
      simp
    · simp [Chart.centeredCaption, h1, h2]

/-- C8 witness: a concrete 1D series of 7 points has every label suppressed
and the caption "Today". -/
theorem C8_witness :
    (⟨10, ""⟩ : ChartPoint).label = "" ∧
    Chart.centeredCaption ChartRange.D1 7 = some "Today" := by
  have h := (C8_theorem (fun _ _ => "x")
      [⟨1, 10⟩, ⟨2, 10⟩, ⟨3, 10⟩, ⟨4, 10⟩, ⟨5, 10⟩, ⟨6, 10⟩, ⟨7, 10⟩]
      ChartRange.D1).1 ⟨rfl, by norm_num⟩
  refine ⟨?_, h.2⟩
  refine h.1 ⟨10, ""⟩ ?_
  unfold Chart.equityChartData Chart.seriesToChartData Chart.hidePointLabels
    Chart.hide1DXLabels Chart.hide1WXLabels
  simp

/-- C2 witness: at `now = 0` all three points pass the 1M filter and both
pipelines return the expected two points. -/
theorem C2_witness :
    Home.prepareChartData 0 [⟨0, 10⟩, ⟨604800, 20⟩, ⟨604801, 30⟩]
        ChartRange.M1 0 = [⟨0, 10⟩, ⟨604801, 30⟩] ∧
    (Price.pipeline 0 [⟨0, 10⟩, ⟨604800, 20⟩, ⟨604801, 30⟩]
        ChartRange.M1 0).map (fun p => (p.timestamp, p.close))
      = [((0 : ℚ), (10 : ℚ)), (604801, 30)] :=
  C2_theorem 0 0 (by
    intro p hp
    simp only [List.mem_cons, List.mem_singleton, List.not_mem_nil, or_false] at hp
    rcases hp with rfl | rfl | rfl <;> norm_num [Home.toMs, Home.RANGE_MS])

/-! ### Filter and pipeline structure lemmas -/

lemma Home.equity_filter_perm (s : List EquitySeriesPoint) (r : ChartRange) (now : ℚ) :
    (Home.filterSeriesByRange s r now).Perm
      (s.filter fun p => decide (now - Home.RANGE_MS r ≤ Home.toMs p)) := by
  unfold Home.filterSeriesByRange
  dsimp only
  exact List.perm_insertionSort _ _

lemma Price.filter_perm (s : List MarketPricePoint) (r : ChartRange) (now : ℚ) :
    (Price.filterByRange s r now).Perm
      (s.filter fun p => decide (now - Price.RANGE_MS r ≤ Price.tsMs p)) := by
  unfold Price.filterByRange
  dsimp only
  rw [List.filter_congr fun p _ => decide_eq_decide.2 (Price.cutoff_iff _ p)]
  exact List.perm_insertionSort _ _

lemma Home.equity_RANGE_MS_nonneg (r : ChartRange) : 0 ≤ Home.RANGE_MS r := by
  cases r <;> norm_num [Home.RANGE_MS]

lemma Price.RANGE_MS_nonneg (r : ChartRange) : 0 ≤ Price.RANGE_MS r := by
  cases r <;> norm_num [Price.RANGE_MS]

lemma Home.mem_prepare {tz : ℤ} {s : List EquitySeriesPoint} {r : ChartRange}
    {now : ℚ} {q : EquitySeriesPoint}
    (h : q ∈ Home.prepareChartData tz s r now) :
    q ∈ Home.filterSeriesByRange s r now := by
  unfold Home.prepareChartData at h
  cases r with
  | D1 => rwa [Home.equity_downsample_D1] at h
  | W1 => rwa [Home.equity_downsample_W1] at h
  | M1 =>
      rw [Home.equity_downsample_M1, List.mem_insertionSort] at h
      exact mem_values_bucketFold _ _ h
  | Y1 =>
      rw [Home.equity_downsample_Y1, List.mem_insertionSort] at h
      exact mem_values_bucketFold _ _ h

lemma Price.mem_pipeline {tz : ℤ} {s : List MarketPricePoint} {r : ChartRange}
    {now : ℚ} {q : MarketPricePoint}
    (h : q ∈ Price.pipeline tz s r now) :
    q ∈ Price.filterByRange s r now := by
  unfold Price.pipeline at h
  cases r with
  | D1 => rwa [Price.downsample_D1] at h
  | W1 => rwa [Price.downsample_W1] at h
  | M1 =>
      rw [Price.downsample_M1, List.mem_insertionSort] at h
      exact mem_values_bucketFold _ _ h
  | Y1 =>
      rw [Price.downsample_Y1, List.mem_insertionSort] at h
      exact mem_values_bucketFold _ _ h

lemma Home.equity_length_filter_le (s : List EquitySeriesPoint) (r : ChartRange)
    (now : ℚ) : (Home.filterSeriesByRange s r now).length ≤ s.length := by
  unfold Home.filterSeriesByRange
  dsimp only
  rw [List.length_insertionSort]
  exact List.length_filter_le _ _

lemma Price.length_filter_le (s : List MarketPricePoint) (r : ChartRange)
    (now : ℚ) : (Price.filterByRange s r now).length ≤ s.length := by
  unfold Price.filterByRange
  dsimp only
  rw [List.length_insertionSort]
  exact List.length_filter_le _ _

lemma Home.length_prepare_le (tz : ℤ) (s : List EquitySeriesPoint)
    (r : ChartRange) (now : ℚ) :
    (Home.prepareChartData tz s r now).length ≤ s.length := by
  unfold Home.prepareChartData
  cases r with
  | D1 => rw [Home.equity_downsample_D1]; exact Home.equity_length_filter_le s _ now
  | W1 => rw [Home.equity_downsample_W1]; exact Home.equity_length_filter_le s _ now
  | M1 =>
      rw [Home.equity_downsample_M1, List.length_insertionSort]
      exact le_trans (length_values _ _) (Home.equity_length_filter_le s _ now)
  | Y1 =>
      rw [Home.equity_downsample_Y1, List.length_insertionSort]
      exact le_trans (length_values _ _) (Home.equity_length_filter_le s _ now)

lemma Price.length_pipeline_le (tz : ℤ) (s : List MarketPricePoint)
    (r : ChartRange) (now : ℚ) :
    (Price.pipeline tz s r now).length ≤ s.length := by
  unfold Price.pipeline
  cases r with
  | D1 => rw [Price.downsample_D1]; exact Price.length_filter_le s _ now
  | W1 => rw [Price.downsample_W1]; exact Price.length_filter_le s _ now
  | M1 =>
      rw [Price.downsample_M1, List.length_insertionSort]
      exact le_trans (length_values _ _) (Price.length_filter_le s _ now)
  | Y1 =>
      rw [Price.downsample_Y1, List.length_insertionSort]
      exact le_trans (length_values _ _) (Price.length_filter_le s _ now)

/-! ### Claim C4 -/

/-- C4: both active range filters retain exactly (as a multiset) the points
whose normalized millisecond instant is at least `now - RANGE_MS[range]`;
the bound is an inclusive lower bound, a point exactly at the cutoff is
retained, and every future-dated point (normalized instant beyond `now`) is
retained, for every range and input. -/
theorem C4_theorem (s : List EquitySeriesPoint) (s' : List MarketPricePoint)
    (r : ChartRange) (now : ℚ) :
    (Home.filterSeriesByRange s r now).Perm
      (s.filter fun p => decide (now - Home.RANGE_MS r ≤ Home.toMs p)) ∧
    (∀ p ∈ Home.filterSeriesByRange s r now,
      now - Home.RANGE_MS r ≤ Home.toMs p) ∧
    (∀ p ∈ s, now - Home.RANGE_MS r ≤ Home.toMs p →
      p ∈ Home.filterSeriesByRange s r now) ∧
    (∀ p ∈ s, now < Home.toMs p → p ∈ Home.filterSeriesByRange s r now) ∧
    (Price.filterByRange s' r now).Perm
      (s'.filter fun p => decide (now - Price.RANGE_MS r ≤ Price.tsMs p)) ∧
    (∀ p ∈ Price.filterByRange s' r now,
      now - Price.RANGE_MS r ≤ Price.tsMs p) ∧
    (∀ p ∈ s', now - Price.RANGE_MS r ≤ Price.tsMs p →
      p ∈ Price.filterByRange s' r now) ∧
    (∀ p ∈ s', now < Price.tsMs p → p ∈ Price.filterByRange s' r now) := by
  refine ⟨Home.equity_filter_perm s r now, ?_, ?_, ?_, Price.filter_perm s' r now, ?_, ?_, ?_⟩
  · intro p hp
    exact (Home.equity_mem_filter_iff.1 hp).2
  · intro p hp hcut
    exact Home.equity_mem_filter_iff.2 ⟨hp, hcut⟩
  · intro p hp hfut
    refine Home.equity_mem_filter_iff.2 ⟨hp, ?_⟩
    have := Home.equity_RANGE_MS_nonneg r
    linarith
  · intro p hp
    exact (Price.mem_filter_iff.1 hp).2
  · intro p hp hcut
    exact Price.mem_filter_iff.2 ⟨hp, hcut⟩
  · intro p hp hfut
    refine Price.mem_filter_iff.2 ⟨hp, ?_⟩
    have := Price.RANGE_MS_nonneg r
    linarith

/-- C4 witness: a point exactly at the cutoff is retained, and a
future-dated point is retained. -/
theorem C4_witness :
    (⟨-86400, 1⟩ : EquitySeriesPoint)
        ∈ Home.filterSeriesByRange [⟨-86400, 1⟩] ChartRange.D1 0 ∧
    (⟨2000000000000, 1⟩ : MarketPricePoint)
        ∈ Price.filterByRange [⟨2000000000000, 1⟩] ChartRange.D1 0 := by
  constructor
  · refine (C4_theorem [⟨-86400, 1⟩] [⟨2000000000000, 1⟩]
      ChartRange.D1 0).2.2.1 ⟨-86400, 1⟩ (by simp) ?_
    norm_num [Home.toMs, Home.RANGE_MS]
  · refine (C4_theorem [⟨-86400, 1⟩] [⟨2000000000000, 1⟩]
      ChartRange.D1 0).2.2.2.2.2.2.2 ⟨2000000000000, 1⟩ (by simp) ?_
    norm_num [Price.tsMs]

/-! ### Claim C10 -/

/-- C10: the pipelines never synthesize values: every output point is an
element of the input series, the output is never longer than the input, and
for ranges 1D and 1W the output is exactly the range-filtered input
reordered (a permutation, multiplicity preserved). -/
theorem C10_theorem (tz : ℤ) (s : List EquitySeriesPoint)
    (s' : List MarketPricePoint) (r : ChartRange) (now : ℚ) :
    (∀ q ∈ Home.prepareChartData tz s r now, q ∈ s) ∧
    (Home.prepareChartData tz s r now).length ≤ s.length ∧
    ((r = ChartRange.D1 ∨ r = ChartRange.W1) →
      (Home.prepareChartData tz s r now).Perm
        (s.filter fun p => decide (now - Home.RANGE_MS r ≤ Home.toMs p))) ∧
    (∀ q ∈ Price.pipeline tz s' r now, q ∈ s') ∧
    (Price.pipeline tz s' r now).length ≤ s'.length ∧
    ((r = ChartRange.D1 ∨ r = ChartRange.W1) →
      (Price.pipeline tz s' r now).Perm
        (s'.filter fun p => decide (now - Price.RANGE_MS r ≤ Price.tsMs p))) := by
  refine ⟨?_, Home.length_prepare_le tz s r now, ?_, ?_,
    Price.length_pipeline_le tz s' r now, ?_⟩
  · intro q hq
    exact (Home.equity_mem_filter_iff.1 (Home.mem_prepare hq)).1
  · rintro (rfl | rfl)
    · rw [show Home.prepareChartData tz s ChartRange.D1 now
          = Home.filterSeriesByRange s ChartRange.D1 now from Home.equity_downsample_D1 tz _]
      exact Home.equity_filter_perm s _ now
    · rw [show Home.prepareChartData tz s ChartRange.W1 now
          = Home.filterSeriesByRange s ChartRange.W1 now from Home.equity_downsample_W1 tz _]
      exact Home.equity_filter_perm s _ now
  · intro q hq
    exact (Price.mem_filter_iff.1 (Price.mem_pipeline hq)).1
  · rintro (rfl | rfl)
    · rw [show Price.pipeline tz s' ChartRange.D1 now
          = Price.filterByRange s' ChartRange.D1 now from Price.downsample_D1 tz _]
      exact Price.filter_perm s' _ now
    · rw [show Price.pipeline tz s' ChartRange.W1 now
          = Price.filterByRange s' ChartRange.W1 now from Price.downsample_W1 tz _]
      exact Price.filter_perm s' _ now

/-- C10 witness: the 1D and 1W pass-through permutation at a concrete
input. -/
theorem C10_witness :
    (Home.prepareChartData 0 [⟨0, 1⟩] ChartRange.D1 0).Perm
      ([⟨0, 1⟩].filter fun p => decide (0 - Home.RANGE_MS ChartRange.D1 ≤ Home.toMs p)) ∧
    (Price.pipeline 0 [⟨5, 2⟩] ChartRange.W1 0).Perm
      ([⟨5, 2⟩].filter fun p => decide (0 - Price.RANGE_MS ChartRange.W1 ≤ Price.tsMs p)) :=
  ⟨(C10_theorem 0 [⟨0, 1⟩] [⟨5, 2⟩] ChartRange.D1 0).2.2.1 (Or.inl rfl),
   (C10_theorem 0 [⟨0, 1⟩] [⟨5, 2⟩] ChartRange.W1 0).2.2.2.2.2 (Or.inr rfl)⟩

/-! ### Idempotence machinery -/

lemma downsampleCore_fixed {P : Type} (bkt : P → ℤ) (key : P → ℚ) {l : List P}
    (hne : l.Pairwise fun a b => bkt a ≠ bkt b)
    (hsorted : l.Pairwise fun a b => key a ≤ key b) :
    List.insertionSort (fun a b => key a ≤ key b)
      (mapValues (bucketFold bkt key l)) = l := by
  rw [values_of_pairwise bkt key hne]
  exact insertionSort_eq_of_pairwise hsorted

lemma pairwise_ne_sorted {P : Type} (bkt : P → ℤ) (key : P → ℚ) (l : List P) :
    (List.insertionSort (fun a b => key a ≤ key b)
      (mapValues (bucketFold bkt key l))).Pairwise fun a b => bkt a ≠ bkt b :=
  ((List.perm_insertionSort _ _).pairwise_iff
    (fun h e => h e.symm)).2 (pairwise_ne_values bkt key)

lemma Home.prepare_sorted (tz : ℤ) (s : List EquitySeriesPoint)
    (r : ChartRange) (now : ℚ) :
    (Home.prepareChartData tz s r now).Pairwise fun a b =>
      Home.toMs a ≤ Home.toMs b := by
  unfold Home.prepareChartData
  cases r with
  | D1 =>
      rw [Home.equity_downsample_D1]
      unfold Home.filterSeriesByRange
      dsimp only
      exact pairwise_le_insertionSort Home.toMs _
  | W1 =>
      rw [Home.equity_downsample_W1]
      unfold Home.filterSeriesByRange
      dsimp only
      exact pairwise_le_insertionSort Home.toMs _
  | M1 =>
      rw [Home.equity_downsample_M1]
      exact (pairwise_le_insertionSort Home.toSec _).imp
        fun hab => (Home.toSec_le_iff _ _).1 hab
  | Y1 =>
      rw [Home.equity_downsample_Y1]
      exact pairwise_le_insertionSort Home.toMs _

lemma Price.pipeline_sorted (tz : ℤ) (s : List MarketPricePoint)
    (r : ChartRange) (now : ℚ) :
    (Price.pipeline tz s r now).Pairwise fun a b =>
      Price.tsMs a ≤ Price.tsMs b := by
  unfold Price.pipeline
  cases r with
  | D1 =>
      rw [Price.downsample_D1]
      unfold Price.filterByRange
      dsimp only
      exact (pairwise_le_insertionSort Price.toSec _).imp
        fun hab => (Price.sec_le_iff _ _).1 (Price.toSec_eq_sec ▸ hab)
  | W1 =>
      rw [Price.downsample_W1]
      unfold Price.filterByRange
      dsimp only
      exact (pairwise_le_insertionSort Price.toSec _).imp
        fun hab => (Price.sec_le_iff _ _).1 (Price.toSec_eq_sec ▸ hab)
  | M1 =>
      rw [Price.downsample_M1]
      exact (pairwise_le_insertionSort Price.sec _).imp
        fun hab => (Price.sec_le_iff _ _).1 hab
  | Y1 =>
      rw [Price.downsample_Y1]
      exact pairwise_le_insertionSort Price.tsMs _

lemma Home.equity_filter_fixed {r : ChartRange} {now : ℚ} {l : List EquitySeriesPoint}
    (hmem : ∀ p ∈ l, now - Home.RANGE_MS r ≤ Home.toMs p)
    (hsorted : l.Pairwise fun a b => Home.toMs a ≤ Home.toMs b) :
    Home.filterSeriesByRange l r now = l := by
  unfold Home.filterSeriesByRange
  dsimp only
  rw [List.filter_eq_self.mpr fun a ha => decide_eq_true (hmem a ha)]
  exact insertionSort_eq_of_pairwise hsorted

lemma Price.filter_fixed {r : ChartRange} {now : ℚ} {l : List MarketPricePoint}
    (hmem : ∀ p ∈ l, now - Price.RANGE_MS r ≤ Price.tsMs p)
    (hsorted : l.Pairwise fun a b => Price.toSec a ≤ Price.toSec b) :
    Price.filterByRange l r now = l := by
  unfold Price.filterByRange
  dsimp only
  rw [List.filter_eq_self.mpr fun a ha =>
    decide_eq_true ((Price.cutoff_iff _ a).2 (hmem a ha))]
  exact insertionSort_eq_of_pairwise hsorted

lemma Home.prepare_idem (tz : ℤ) (s : List EquitySeriesPoint)
    (r : ChartRange) (now : ℚ) :
    Home.prepareChartData tz (Home.prepareChartData tz s r now) r now
      = Home.prepareChartData tz s r now := by
  have hmem : ∀ p ∈ Home.prepareChartData tz s r now,
      now - Home.RANGE_MS r ≤ Home.toMs p :=
    fun p hp => (Home.equity_mem_filter_iff.1 (Home.mem_prepare hp)).2
  have hsorted := Home.prepare_sorted tz s r now
  set out := Home.prepareChartData tz s r now with hout
  conv_lhs => rw [Home.prepareChartData]
  rw [Home.equity_filter_fixed hmem hsorted]
  cases r with
  | D1 => exact Home.equity_downsample_D1 tz out
  | W1 => exact Home.equity_downsample_W1 tz out
  | M1 =>
      rw [Home.equity_downsample_M1]
      refine downsampleCore_fixed _ _ ?_ ?_
      · rw [hout]
        unfold Home.prepareChartData
        rw [Home.equity_downsample_M1]
        exact pairwise_ne_sorted _ _ _
      · exact hsorted.imp fun hab => (Home.toSec_le_iff _ _).2 hab
  | Y1 =>
      rw [Home.equity_downsample_Y1]
      refine downsampleCore_fixed _ _ ?_ ?_
      · rw [hout]
        unfold Home.prepareChartData
        rw [Home.equity_downsample_Y1]
        exact pairwise_ne_sorted _ _ _
      · exact hsorted

lemma Price.pipeline_idem (tz : ℤ) (s : List MarketPricePoint)
    (r : ChartRange) (now : ℚ) :
    Price.pipeline tz (Price.pipeline tz s r now) r now
      = Price.pipeline tz s r now := by
  have hmem : ∀ p ∈ Price.pipeline tz s r now,
      now - Price.RANGE_MS r ≤ Price.tsMs p :=
    fun p hp => (Price.mem_filter_iff.1 (Price.mem_pipeline hp)).2
  have hsorted := Price.pipeline_sorted tz s r now
  set out := Price.pipeline tz s r now with hout
  have hsortedSec : out.Pairwise fun a b => Price.toSec a ≤ Price.toSec b := by
    rw [Price.toSec_eq_sec]
    exact hsorted.imp fun hab => (Price.sec_le_iff _ _).2 hab
  conv_lhs => rw [Price.pipeline]
  rw [Price.filter_fixed hmem hsortedSec]
  cases r with
  | D1 => exact Price.downsample_D1 tz out
  | W1 => exact Price.downsample_W1 tz out
  | M1 =>
      rw [Price.downsample_M1]
      refine downsampleCore_fixed _ _ ?_ ?_
      · rw [hout]
        unfold Price.pipeline
        rw [Price.downsample_M1]
        exact pairwise_ne_sorted _ _ _
      · exact hsorted.imp fun hab => (Price.sec_le_iff _ _).2 hab
  | Y1 =>
      rw [Price.downsample_Y1]
      refine downsampleCore_fixed _ _ ?_ ?_
      · rw [hout]
        unfold Price.pipeline
        rw [Price.downsample_Y1]
        exact pairwise_ne_sorted _ _ _
      · exact hsorted

/-! ### Claim C5 -/

/-- C5: for every input series, range and reference time, the pipeline
output is sorted ascending by normalized millisecond timestamp, and the
pipeline (filter then downsample) is idempotent: applying it to its own
output with the same range and reference time yields the same sequence, in
both copies. -/
theorem C5_theorem (tz : ℤ) (s : List EquitySeriesPoint)
    (s' : List MarketPricePoint) (r : ChartRange) (now : ℚ) :
    (Home.prepareChartData tz s r now).Pairwise
      (fun a b => Home.toMs a ≤ Home.toMs b) ∧
    Home.prepareChartData tz (Home.prepareChartData tz s r now) r now
      = Home.prepareChartData tz s r now ∧
    (Price.pipeline tz s' r now).Pairwise
      (fun a b => Price.tsMs a ≤ Price.tsMs b) ∧
    Price.pipeline tz (Price.pipeline tz s' r now) r now
      = Price.pipeline tz s' r now :=
  ⟨Home.prepare_sorted tz s r now, Home.prepare_idem tz s r now,
   Price.pipeline_sorted tz s' r now, Price.pipeline_idem tz s' r now⟩

/-! ### Claim C1 -/

/-- Specification of one-representative-per-bucket downsampling: every
output point comes from the input; output points have pairwise distinct
buckets; every non-empty input bucket is represented; each representative
has the maximum key (normalized timestamp) among its bucket members; and
among the members achieving that maximum it is the first in a left-to-right
scan of the input (every strictly earlier same-bucket member has a strictly
smaller key). -/
def KeepsFirstMaxPerBucket {P : Type} (bkt : P → ℤ) (key : P → ℚ)
    (l out : List P) : Prop :=
  (∀ q ∈ out, q ∈ l) ∧
  out.Pairwise (fun a b => bkt a ≠ bkt b) ∧
  (∀ p ∈ l, ∃ q ∈ out, bkt q = bkt p) ∧
  (∀ q ∈ out, ∀ p ∈ l, bkt p = bkt q → key p ≤ key q) ∧
  (∀ q ∈ out, ∃ l₁ l₂,
    (l.filter fun p => decide (bkt p = bkt q)) = l₁ ++ q :: l₂ ∧
    ∀ p ∈ l₁, key p < key q)

lemma downsampleCore_spec {P : Type} (bkt : P → ℤ) (key : P → ℚ) (l : List P) :
    KeepsFirstMaxPerBucket bkt key l
      (List.insertionSort (fun a b => key a ≤ key b)
        (mapValues (bucketFold bkt key l))) := by
  refine ⟨?_, pairwise_ne_sorted bkt key l, ?_, ?_, ?_⟩
  · intro q hq
    exact mem_values_bucketFold _ _ ((List.mem_insertionSort _).1 hq)
  · intro p hp
    rcases values_surj bkt key hp with ⟨q, hq, hbq⟩
    exact ⟨q, (List.mem_insertionSort _).2 hq, hbq⟩
  · intro q hq
    exact values_max bkt key ((List.mem_insertionSort _).1 hq)
  · intro q hq
    exact values_first bkt key ((List.mem_insertionSort _).1 hq)

/-- C1 counterexample: the claim says a tie in normalized timestamp is won
by the point encountered LAST in the scan, but the source comparison is
strict (`sec(p) > sec(existing)`), so the incumbent — the point encountered
FIRST — survives. The points `(0, 10)` and `(0, 20)` tie in timestamp and
share 1M bucket 0, and the downsampler keeps `(0, 10)`, not `(0, 20)`. -/
theorem C1_counterexample :
    Home.toSec ⟨0, 10⟩ = Home.toSec ⟨0, 20⟩ ∧
    (⌊Home.toSec ⟨0, 10⟩ / Home.SEVEN_DAYS_SEC⌋ : ℤ)
      = ⌊Home.toSec ⟨0, 20⟩ / Home.SEVEN_DAYS_SEC⌋ ∧
    (⟨0, 10⟩ : EquitySeriesPoint) ≠ ⟨0, 20⟩ ∧
    Home.downsampleEquityByRange 0 [⟨0, 10⟩, ⟨0, 20⟩] ChartRange.M1 = [⟨0, 10⟩] ∧
    Home.downsampleEquityByRange 0 [⟨0, 10⟩, ⟨0, 20⟩] ChartRange.M1 ≠ [⟨0, 20⟩] := by
  have hds : Home.downsampleEquityByRange 0 [⟨0, 10⟩, ⟨0, 20⟩] ChartRange.M1
      = [⟨0, 10⟩] := by
    have hfloor0 : (⌊(0 : ℚ) / 604800⌋ : ℤ) = 0 := by norm_num
    rw [Home.equity_downsample_M1]
    norm_num [bucketFold, bucketStep, findVal, upsert, mapValues, Home.toSec,
      Home.SEVEN_DAYS_SEC, List.insertionSort, List.orderedInsert, hfloor0]
  refine ⟨by norm_num [Home.toSec], by norm_num [Home.toSec], ?_, hds, ?_⟩
  · intro h
    have := congrArg EquitySeriesPoint.total_equity h
    norm_num at this
  · rw [hds]
    intro h
    have h2 : (⟨0, 10⟩ : EquitySeriesPoint) = ⟨0, 20⟩ := by injection h
    have := congrArg EquitySeriesPoint.total_equity h2
    norm_num at this

/-- C1 (amended): for range 1M (bucket index `floor(normalized_seconds /
604800)`) and range 1Y (bucket index `year * 12 + month` of the local
calendar date), both downsampling functions keep exactly one point per
non-empty bucket, namely the one with the latest normalized timestamp in
that bucket; when several points in a bucket tie in normalized timestamp,
the one encountered FIRST in a left-to-right scan of the input is kept (the
source comparison is strict). -/
theorem C1_theorem (tz : ℤ) (s : List EquitySeriesPoint)
    (s' : List MarketPricePoint) :
    KeepsFirstMaxPerBucket (fun p => ⌊Home.toSec p / Home.SEVEN_DAYS_SEC⌋)
      Home.toSec s (Home.downsampleEquityByRange tz s ChartRange.M1) ∧
    KeepsFirstMaxPerBucket (fun p => ymBucket tz (Home.toMs p)) Home.toMs
      s (Home.downsampleEquityByRange tz s ChartRange.Y1) ∧
    KeepsFirstMaxPerBucket (fun p => ⌊Price.sec p / Price.SEVEN_DAYS_SEC⌋)
      Price.sec s' (Price.downsampleForRange tz s' ChartRange.M1) ∧
    KeepsFirstMaxPerBucket (fun p => ymBucket tz (Price.tsMs p)) Price.tsMs
      s' (Price.downsampleForRange tz s' ChartRange.Y1) := by
  refine ⟨?_, ?_, ?_, ?_⟩
  · rw [Home.equity_downsample_M1]
    exact downsampleCore_spec _ _ s
  · rw [Home.equity_downsample_Y1]
    exact downsampleCore_spec _ _ s
  · rw [Price.downsample_M1]
    exact downsampleCore_spec _ _ s'
  · rw [Price.downsample_Y1]
    exact downsampleCore_spec _ _ s'

/-- C1 witness: on the series `[(604800, 20), (604801, 30)]` both points
share 1M bucket 1; the kept representative is `(604801, 30)` and the
max-timestamp property instantiates to a concrete inequality. -/
theorem C1_witness : Home.toSec ⟨604800, 20⟩ ≤ Home.toSec ⟨604801, 30⟩ := by
  have h := (C1_theorem 0 [⟨604800, 20⟩, ⟨604801, 30⟩] []).1
  have hfloor1 : (⌊(604800 : ℚ) / 604800⌋ : ℤ) = 1 := by norm_num
  have hfloor2 : (⌊(604801 : ℚ) / 604800⌋ : ℤ) = 1 := by
    norm_num [Int.floor_eq_iff]
  have hds : Home.downsampleEquityByRange 0 [⟨604800, 20⟩, ⟨604801, 30⟩]
      ChartRange.M1 = [⟨604801, 30⟩] := by
    rw [Home.equity_downsample_M1]
    norm_num [bucketFold, bucketStep, findVal, upsert, mapValues, Home.toSec,
      Home.SEVEN_DAYS_SEC, List.insertionSort, List.orderedInsert,
      hfloor1, hfloor2]
  refine h.2.2.2.1 ⟨604801, 30⟩ ?_ ⟨604800, 20⟩ (by simp) ?_
  · rw [hds]
    simp
  · norm_num [Home.toSec, Home.SEVEN_DAYS_SEC, hfloor1, hfloor2]

/-! ### Claim C9 -/

/-- Observable content of a price point: its `(timestamp, value)` pair. -/
def pricePair (p : MarketPricePoint) : ℚ × ℚ := (p.timestamp, p.close)

/-- Observable content of an equity point: its `(timestamp, value)` pair. -/
def equityPair (p : EquitySeriesPoint) : ℚ × ℚ := (p.timestamp, p.total_equity)

/-- Field renaming between the two point record types (`close` versus
`total_equity`). -/
def toEquity (p : MarketPricePoint) : EquitySeriesPoint := ⟨p.timestamp, p.close⟩

lemma map_pair_inj {sE : List EquitySeriesPoint} {sP : List MarketPricePoint}
    (h : sE.map equityPair = sP.map pricePair) : sE = sP.map toEquity := by
  induction sP generalizing sE with
  | nil =>
      cases sE with
      | nil => rfl
      | cons e es => simp at h
  | cons p ps ih =>
      cases sE with
      | nil => simp at h
      | cons e es =>
          simp only [List.map_cons, List.cons.injEq] at h ⊢
          rcases h with ⟨h1, h2⟩
          refine ⟨?_, ih h2⟩
          cases e
          cases p
          simp only [equityPair, pricePair, toEquity, Prod.mk.injEq,
            EquitySeriesPoint.mk.injEq] at h1 ⊢
          exact h1

lemma findVal_map {P P' : Type} (f : P → P') (b : ℤ) (m : List (ℤ × P)) :
    findVal b (m.map fun kv => (kv.1, f kv.2)) = (findVal b m).map f := by
  induction m with
  | nil => rfl
  | cons kv rest ih =>
      by_cases h : kv.1 = b <;> simp [findVal, h, ih]

lemma upsert_map {P P' : Type} (f : P → P') (b : ℤ) (v : P) (m : List (ℤ × P)) :
    upsert b (f v) (m.map fun kv => (kv.1, f kv.2))
      = (upsert b v m).map fun kv => (kv.1, f kv.2) := by
  induction m with
  | nil => rfl
  | cons kv rest ih =>
      by_cases h : kv.1 = b <;> simp [upsert, h, ih]

lemma bucketFold_map {P P' : Type} (f : P → P') (bkt' : P' → ℤ) (key' : P' → ℚ)
    (bkt : P → ℤ) (key : P → ℚ)
    (hb : ∀ p, bkt' (f p) = bkt p) (hk : ∀ p, key' (f p) = key p) (l : List P) :
    bucketFold bkt' key' (l.map f)
      = (bucketFold bkt key l).map fun kv => (kv.1, f kv.2) := by
  induction l using List.reverseRecOn with
  | nil => rfl
  | append_singleton l p ih =>
      rw [List.map_append, List.map_singleton, bucketFold_append,
        bucketFold_append, ih]
      unfold bucketStep
      rw [hb, findVal_map]
      cases hfv : findVal (bkt p) (bucketFold bkt key l) with
      | none =>
          simp only [hfv, Option.map_none']
          exact upsert_map f _ p _
      | some q =>
          simp only [hfv, Option.map_some', hk]
          by_cases hlt : key q < key p
          · rw [if_pos hlt, if_pos hlt]
            exact upsert_map f _ p _
          · rw [if_neg hlt, if_neg hlt]

lemma mapValues_map {P P' : Type} (f : P → P') (m : List (ℤ × P)) :
    mapValues (m.map fun kv => (kv.1, f kv.2)) = (mapValues m).map f := by
  simp [mapValues, List.map_map]

lemma RANGE_eq (r : ChartRange) : Home.RANGE_MS r = Price.RANGE_MS r := by
  cases r <;> rfl

lemma filter_comm (r : ChartRange) (now : ℚ) (s : List MarketPricePoint) :
    Home.filterSeriesByRange (s.map toEquity) r now
      = (Price.filterByRange s r now).map toEquity := by
  unfold Home.filterSeriesByRange Price.filterByRange
  dsimp only
  rw [List.filter_map]
  have hfc : (s.filter
        ((fun p => decide (now - Home.RANGE_MS r ≤ Home.toMs p)) ∘ toEquity))
      = s.filter fun p =>
        decide ((now - Price.RANGE_MS r) / 1000 ≤ Price.toSec p) := by
    refine List.filter_congr ?_
    intro p _
    simp only [Function.comp_apply]
    refine decide_eq_decide.2 ?_
    rw [show Home.toMs (toEquity p) = Price.tsMs p from rfl, RANGE_eq]
    exact (Price.cutoff_iff _ p).symm
  rw [hfc]
  refine (List.map_insertionSort _ _ toEquity _ ?_).symm
  intro a _ b _
  show Price.toSec a ≤ Price.toSec b ↔
    Home.toMs (toEquity a) ≤ Home.toMs (toEquity b)
  rw [show Home.toMs (toEquity a) = Price.tsMs a from rfl,
    show Home.toMs (toEquity b) = Price.tsMs b from rfl,
    Price.toSec_eq_sec]
  exact Price.sec_le_iff a b

lemma downsample_comm (tz : ℤ) (r : ChartRange) (s : List MarketPricePoint) :
    Home.downsampleEquityByRange tz (s.map toEquity) r
      = (Price.downsampleForRange tz s r).map toEquity := by
  cases r with
  | D1 => rw [Home.equity_downsample_D1, Price.downsample_D1]
  | W1 => rw [Home.equity_downsample_W1, Price.downsample_W1]
  | M1 =>
      rw [Home.equity_downsample_M1, Price.downsample_M1]
      rw [bucketFold_map toEquity _ _
        (fun p => ⌊Price.sec p / Price.SEVEN_DAYS_SEC⌋) Price.sec
        (fun _ => rfl) (fun _ => rfl) s]
      rw [mapValues_map]
      refine (List.map_insertionSort _ _ toEquity _ ?_).symm
      intro a _ b _
      exact Iff.rfl
  | Y1 =>
      rw [Home.equity_downsample_Y1, Price.downsample_Y1]
      rw [bucketFold_map toEquity _ _
        (fun p => ymBucket tz (Price.tsMs p)) Price.tsMs
        (fun _ => rfl) (fun _ => rfl) s]
      rw [mapValues_map]
      refine (List.map_insertionSort _ _ toEquity _ ?_).symm
      intro a _ b _
      exact Iff.rfl

lemma pipeline_comm (tz : ℤ) (r : ChartRange) (now : ℚ)
    (s : List MarketPricePoint) :
    Home.prepareChartData tz (s.map toEquity) r now
      = (Price.pipeline tz s r now).map toEquity := by
  unfold Home.prepareChartData Price.pipeline
  rw [filter_comm, downsample_comm]

/-- C9: the two near-duplicate pipelines compute extensionally equal
functions: for every range, reference time and timezone, and every pair of
input series that agree pointwise in timestamp and numeric value (one using
the field `total_equity`, the other `close`), filter-then-downsample yields
the same sequence of `(timestamp, value)` pairs in both. -/
theorem C9_theorem (tz : ℤ) (r : ChartRange) (now : ℚ)
    (sE : List EquitySeriesPoint) (sP : List MarketPricePoint)
    (h : sE.map equityPair = sP.map pricePair) :
    (Home.prepareChartData tz sE r now).map equityPair
      = (Price.pipeline tz sP r now).map pricePair := by
  rw [map_pair_inj h, pipeline_comm, List.map_map]
  rfl

/-- C9 witness: the two pipelines agree on a concrete one-point series. -/
theorem C9_witness :
    (Home.prepareChartData 0 [⟨0, 10⟩] ChartRange.D1 0).map equityPair
      = (Price.pipeline 0 [⟨0, 10⟩] ChartRange.D1 0).map pricePair :=
  C9_theorem 0 ChartRange.D1 0 [⟨0, 10⟩] [⟨0, 10⟩] rfl
